import Mathlib

/-!
Verification of the taskX task-packet orchestrator against its specification.

The Lean definitions below are shallow embeddings of the Python source:

* `taskx/guard/identity.py` — repo/packet/run identity guard;
* `taskx/pipeline/bundle/ingester.py` — hardened zip extraction and
  manifest/content integrity checking;
* `dopetask/pipeline/bundle/ingester.py` — the second (dopetask) integrity
  checker;
* `dopetask/orchestrator/handoff.py` — manual handoff chunk builder/renderer;
* `dopetask/pipeline/case/auditor.py` — claim aggregation and audit findings.

Filesystem and subprocess effects are modelled by explicit state passing:
persisted files become explicit `Option` values, the git queries and the wall
clock become parameters, and fallible code returns `Except`.  Python strings
are Lean `String`s (ASCII-faithful where the code manipulates characters).
-/

namespace TaskX

/-- Python `str.strip` whitespace set: space, tab, newline, carriage return,
vertical tab, form feed. -/
def pySpace (c : Char) : Bool :=
  c = ' ' || c = '\t' || c = '\n' || c = '\r' || c = '\x0b' || c = '\x0c'

/-- Python `str.strip()`: drop leading and trailing whitespace. -/
def pyStrip (s : String) : String :=
  ⟨((s.data.dropWhile pySpace).reverse.dropWhile pySpace).reverse⟩

/-- `RepoIdentity` dataclass from `taskx/guard/identity.py`. -/
structure RepoIdentity where
  project_id : String
  project_slug : Option String
  repo_remote_hint : Option String
  packet_required_header : Bool
deriving DecidableEq

/-- `ProjectIdentity` dataclass from `taskx/pipeline/task_runner/types.py`:
the packet PROJECT IDENTITY header. -/
structure ProjectIdentity where
  project_id : String
  intended_repo : Option String
deriving DecidableEq

/-- `MISSING_PROJECT_HEADER_REFUSAL` constant from `taskx/guard/identity.py`. -/
def MISSING_PROJECT_HEADER_REFUSAL : String :=
  "ERROR: Task Packet missing required PROJECT IDENTITY header.\nRefusing to run."

/-- `assert_repo_packet_identity` from `taskx/guard/identity.py`.  A raised
`RuntimeError` is modelled as `Except.error` carrying the exact message. -/
def assert_repo_packet_identity (repo_identity : RepoIdentity)
    (packet_identity : Option ProjectIdentity) : Except String Unit :=
  match packet_identity with
  | none =>
    if repo_identity.packet_required_header then
      .error MISSING_PROJECT_HEADER_REFUSAL
    else
      .ok ()
  | some pid =>
    let packet_project_id := pyStrip pid.project_id
    if packet_project_id ≠ repo_identity.project_id then
      .error ("ERROR: Task Packet project_id '" ++ packet_project_id ++
        "' does not match repo project_id '" ++ repo_identity.project_id ++
        "'.\nRefusing to run. Use the correct repo or correct packet.")
    else
      .ok ()

/-- `RunIdentity` dataclass from `taskx/guard/identity.py`. -/
structure RunIdentity where
  schema_version : String
  project_id : String
  repo_root : String
  origin_url : Option String
  head_sha : Option String
  timestamp_utc : String
deriving DecidableEq

/-- `assert_repo_run_identity` from `taskx/guard/identity.py`. -/
def assert_repo_run_identity (repo_identity : RepoIdentity)
    (run_identity : RunIdentity) : Except String Unit :=
  if run_identity.project_id ≠ repo_identity.project_id then
    .error ("ERROR: Run directory project_id '" ++ run_identity.project_id ++
      "' does not match repo project_id '" ++ repo_identity.project_id ++
      "'.\nRefusing to run.")
  else
    .ok ()

/-- The git facts `ensure_run_identity` queries (`git remote get-url origin`,
`git rev-parse HEAD`), passed explicitly. -/
structure GitView where
  origin_url : Option String
  head_sha : Option String
deriving DecidableEq

/-- Result of one `ensure_run_identity` call: the returned identity or the
refusal message, together with the post-state of the persisted
RUN_IDENTITY.json (modelled as `Option RunIdentity`). -/
structure EnsureOutcome where
  result : Except String RunIdentity
  stored : Option RunIdentity

/-- `ensure_run_identity` from `taskx/guard/identity.py`.  The persisted
RUN_IDENTITY.json of the run directory enters as `stored` and the post-state
is returned in the outcome; the wall clock enters as `now`. -/
def ensure_run_identity (stored : Option RunIdentity)
    (repo_identity : RepoIdentity) (repo_root : String) (git : GitView)
    (now : String) : EnsureOutcome :=
  match stored with
  | some existing =>
    match assert_repo_run_identity repo_identity existing with
    | .error e => ⟨.error e, some existing⟩
    | .ok _ => ⟨.ok existing, some existing⟩
  | none =>
    let run_identity : RunIdentity :=
      ⟨"1.0", repo_identity.project_id, repo_root, git.origin_url,
        git.head_sha, now⟩
    ⟨.ok run_identity, some run_identity⟩

/-- C2: with repo project_id `taskx` and packet project_id `adops`,
`assert_repo_packet_identity` refuses with the exact fixed message; in
general a stripped packet project_id differing from the repo's refuses with
that message instantiated with the two ids, and an equal one passes. -/
theorem c2_packet_identity_refusal_exact :
    (∀ repo : RepoIdentity, ∀ pkt : ProjectIdentity,
      pyStrip pkt.project_id ≠ repo.project_id →
        assert_repo_packet_identity repo (some pkt) =
          .error ("ERROR: Task Packet project_id '" ++ pyStrip pkt.project_id ++
            "' does not match repo project_id '" ++ repo.project_id ++
            "'.\nRefusing to run. Use the correct repo or correct packet."))
    ∧ (∀ repo : RepoIdentity, ∀ pkt : ProjectIdentity,
      pyStrip pkt.project_id = repo.project_id →
        assert_repo_packet_identity repo (some pkt) = .ok ())
    ∧ assert_repo_packet_identity ⟨"taskx", none, none, false⟩
        (some ⟨"adops", none⟩) =
        .error ("ERROR: Task Packet project_id 'adops' does not match repo project_id 'taskx'.\nRefusing to run. Use the correct repo or correct packet.") := by
  refine ⟨?_, ?_, ?_⟩
  · intro repo pkt h
    simp [assert_repo_packet_identity, h]
  · intro repo pkt h
    simp [assert_repo_packet_identity, h]
  · rfl

/-- Witness for C2 at the concrete ids of the spec scenario. -/
theorem c2_witness :
    assert_repo_packet_identity ⟨"taskx", none, none, false⟩
        (some ⟨"adops", none⟩) =
      .error ("ERROR: Task Packet project_id 'adops' does not match repo project_id 'taskx'.\nRefusing to run. Use the correct repo or correct packet.") :=
  c2_packet_identity_refusal_exact.1 ⟨"taskx", none, none, false⟩
    ⟨"adops", none⟩ (by decide)

/-- C5: with no persisted RUN_IDENTITY.json, `ensure_run_identity` creates an
identity bound to the current repo (project_id, repo root, origin, HEAD) and
persists it; with one present and matching it returns it without rewriting;
on project_id mismatch it refuses and the persisted file is unchanged. -/
theorem c5_ensure_run_identity :
    (∀ repo : RepoIdentity, ∀ root : String, ∀ git : GitView, ∀ now : String,
      ensure_run_identity none repo root git now =
        ⟨.ok ⟨"1.0", repo.project_id, root, git.origin_url, git.head_sha, now⟩,
          some ⟨"1.0", repo.project_id, root, git.origin_url, git.head_sha, now⟩⟩)
    ∧ (∀ existing : RunIdentity, ∀ repo : RepoIdentity, ∀ root git now,
      existing.project_id = repo.project_id →
        ensure_run_identity (some existing) repo root git now =
          ⟨.ok existing, some existing⟩)
    ∧ (∀ existing : RunIdentity, ∀ repo : RepoIdentity, ∀ root git now,
      existing.project_id ≠ repo.project_id →
        ensure_run_identity (some existing) repo root git now =
          ⟨.error ("ERROR: Run directory project_id '" ++ existing.project_id ++
              "' does not match repo project_id '" ++ repo.project_id ++
              "'.\nRefusing to run."), some existing⟩) := by
  refine ⟨?_, ?_, ?_⟩
  · intro repo root git now
    rfl
  · intro existing repo root git now h
    simp [ensure_run_identity, assert_repo_run_identity, h]
  · intro existing repo root git now h
    simp [ensure_run_identity, assert_repo_run_identity, h]

/-- Witness for C5: first access creates and persists, matching re-access
returns unchanged, mismatching re-access refuses and leaves the file. -/
theorem c5_witness :
    (ensure_run_identity none ⟨"taskx", none, none, false⟩ "/repo"
        ⟨some "git@x:y.git", some "abc"⟩ "2026-01-01T00:00:00Z" =
      ⟨.ok ⟨"1.0", "taskx", "/repo", some "git@x:y.git", some "abc",
          "2026-01-01T00:00:00Z"⟩,
        some ⟨"1.0", "taskx", "/repo", some "git@x:y.git", some "abc",
          "2026-01-01T00:00:00Z"⟩⟩)
    ∧ (ensure_run_identity
        (some ⟨"1.0", "taskx", "/repo", none, none, "t"⟩)
        ⟨"taskx", none, none, false⟩ "/repo" ⟨none, none⟩ "now" =
      ⟨.ok ⟨"1.0", "taskx", "/repo", none, none, "t"⟩,
        some ⟨"1.0", "taskx", "/repo", none, none, "t"⟩⟩)
    ∧ (ensure_run_identity
        (some ⟨"1.0", "adops", "/repo", none, none, "t"⟩)
        ⟨"taskx", none, none, false⟩ "/repo" ⟨none, none⟩ "now" =
      ⟨.error ("ERROR: Run directory project_id 'adops' does not match repo project_id 'taskx'.\nRefusing to run."),
        some ⟨"1.0", "adops", "/repo", none, none, "t"⟩⟩) :=
  ⟨c5_ensure_run_identity.1 ⟨"taskx", none, none, false⟩ "/repo"
      ⟨some "git@x:y.git", some "abc"⟩ "2026-01-01T00:00:00Z",
    c5_ensure_run_identity.2.1 ⟨"1.0", "taskx", "/repo", none, none, "t"⟩
      ⟨"taskx", none, none, false⟩ "/repo" ⟨none, none⟩ "now" rfl,
    c5_ensure_run_identity.2.2 ⟨"1.0", "adops", "/repo", none, none, "t"⟩
      ⟨"taskx", none, none, false⟩ "/repo" ⟨none, none⟩ "now" (by decide)⟩

/-- One entry of the extracted-file index built by `_build_case_index`
(`taskx/pipeline/bundle/ingester.py`): posix-relative path, recomputed
sha256 of the bytes on disk, and file size.  The `category` field plays no
role in integrity checking and is elided. -/
structure FileEntry where
  path : String
  sha256 : String
  size_bytes : Nat
deriving DecidableEq

/-- One element of the manifest's `files` list as `_build_integrity` sees it:
a non-dict element, a dict without a string `path`, or an entry whose
declared `sha256`/`size_bytes` are present exactly when they are a string /
an int in the JSON. -/
inductive ManifestEntry where
  | invalid : ManifestEntry
  | noPath : ManifestEntry
  | entry (path : String) (sha256 : Option String) (size_bytes : Option Int) :
      ManifestEntry
deriving DecidableEq

/-- `manifest.get("files")` as `_build_integrity` sees it: either not a list,
or a list of entries. -/
inductive ManifestFiles where
  | notList : ManifestFiles
  | list (entries : List ManifestEntry) : ManifestFiles
deriving DecidableEq

/-- A mismatch record: the typed code and the path it concerns.  Detail
fields (message, expected/actual hash and size) do not affect integrity
status or which paths are flagged and are elided. -/
structure Mismatch where
  code : String
  path : String
deriving DecidableEq

/-- The integrity block of CASE_INDEX.json. -/
structure IntegrityResult where
  status : String
  mismatches_count : Nat
  mismatches : List Mismatch
deriving DecidableEq

/-- `{item["path"]: item for item in actual_files}.get`: a Python dict
comprehension keeps the last item for a repeated key. -/
def dictLast (files : List FileEntry) (p : String) : Option FileEntry :=
  (files.filter (fun f => f.path == p)).getLast?

/-- Lexicographic code-point comparison of character lists, Python string
`<=`. -/
def listCharLe : List Char → List Char → Bool
  | [], _ => true
  | _ :: _, [] => false
  | a :: as, b :: bs =>
    if a.toNat < b.toNat then true
    else if b.toNat < a.toNat then false
    else listCharLe as bs

/-- Python string `<=` (lexicographic on code points). -/
def strLe (a b : String) : Bool := listCharLe a.data b.data

/-- Python `sorted(l)` for strings.  The keys handed to every `sorted` call
in the embedded code are pairwise distinct and totally ordered, so stable
merge sort and insertion sort return the same list. -/
def pySortStr (l : List String) : List String :=
  l.insertionSort (fun a b => strLe a b = true)

/-- Ascending deduplicated ordering, Python `sorted(set(l))`. -/
def sortedDedup (l : List String) : List String :=
  pySortStr l.dedup

/-- The `schema_validation_failed` mismatches `_build_integrity` emits, one
per schema error in `sorted(schema_errors)` order. -/
def schemaErrorMismatches (schema_errors : List String) : List Mismatch :=
  (pySortStr schema_errors).map
    (fun _ => ⟨"schema_validation_failed", "case/CASE_MANIFEST.json"⟩)

/-- Mismatches contributed by the manifest entry at index `idx` of the
`for idx, expected in enumerate(expected_files)` loop of `_build_integrity`. -/
def entryMismatches (actual : String → Option FileEntry) (idx : Nat) :
    ManifestEntry → List Mismatch
  | .invalid =>
    [⟨"manifest_entry_invalid", "case/CASE_MANIFEST.json#files[" ++ toString idx ++ "]"⟩]
  | .noPath =>
    [⟨"manifest_entry_missing_path", "case/CASE_MANIFEST.json#files[" ++ toString idx ++ "]"⟩]
  | .entry p sha sz =>
    match actual p with
    | none => [⟨"missing_file", p⟩]
    | some fe =>
      (match sha with
        | some s => if fe.sha256 ≠ s then [⟨"sha256_mismatch", p⟩] else []
        | none => []) ++
      (match sz with
        | some n => if (fe.size_bytes : Int) ≠ n then [⟨"size_mismatch", p⟩] else []
        | none => [])

/-- The whole `enumerate(expected_files)` loop, indices starting at `idx`. -/
def entriesMismatches (actual : String → Option FileEntry) (idx : Nat) :
    List ManifestEntry → List Mismatch
  | [] => []
  | e :: rest => entryMismatches actual idx e ++ entriesMismatches actual (idx + 1) rest

/-- `expected_paths`: the set of string paths the entry loop collects. -/
def expectedPaths : List ManifestEntry → List String
  | [] => []
  | .entry p _ _ :: rest => p :: expectedPaths rest
  | _ :: rest => expectedPaths rest

/-- The `unexpected_file` pass of `_build_integrity`:
`sorted(set(actual_by_path) - expected_paths - {"case/CASE_MANIFEST.json"})`. -/
def unexpectedMismatches (actual_files : List FileEntry)
    (expected : List String) : List Mismatch :=
  ((sortedDedup (actual_files.map (fun f => f.path))).filter
      (fun p => decide (p ∉ expected ∧ p ≠ "case/CASE_MANIFEST.json"))).map
    (fun p => ⟨"unexpected_file", p⟩)

/-- `_build_integrity` from `taskx/pipeline/bundle/ingester.py`. -/
def build_integrity (schema_errors : List String)
    (manifest_files : ManifestFiles) (actual_files : List FileEntry) :
    IntegrityResult :=
  let base := schemaErrorMismatches schema_errors
  match manifest_files with
  | .notList =>
    let ms := base ++ [⟨"manifest_files_missing", "case/CASE_MANIFEST.json"⟩]
    ⟨"failed", ms.length, ms⟩
  | .list entries =>
    let ms := base ++ entriesMismatches (dictLast actual_files) 0 entries ++
      unexpectedMismatches actual_files (expectedPaths entries)
    ⟨if ms.isEmpty then "passed" else "failed", ms.length, ms⟩

theorem mem_sortedDedup {p : String} {l : List String} :
    p ∈ sortedDedup l ↔ p ∈ l := by
  simp [sortedDedup, pySortStr, List.mem_insertionSort, List.mem_dedup]

theorem build_integrity_status_iff (se : List String) (mf : ManifestFiles)
    (af : List FileEntry) :
    (build_integrity se mf af).status = "passed" ↔
      (build_integrity se mf af).mismatches = [] := by
  cases mf with
  | notList => simp [build_integrity]
  | list entries =>
    simp only [build_integrity]
    split
    · next h => simp [List.isEmpty_iff.mp h]
    · next h =>
      constructor
      · intro hc
        exact absurd hc (by decide)
      · intro hc
        exact absurd (List.isEmpty_iff.mpr hc) h

theorem entryMismatches_idx_irrel (actual : String → Option FileEntry)
    (i j : Nat) (p : String) (sha : Option String) (sz : Option Int) :
    entryMismatches actual i (.entry p sha sz) =
      entryMismatches actual j (.entry p sha sz) := rfl

theorem mem_entriesMismatches_of_entry (actual : String → Option FileEntry)
    {entries : List ManifestEntry} {p : String} {sha : Option String}
    {sz : Option Int} (he : ManifestEntry.entry p sha sz ∈ entries)
    {m : Mismatch} (hm : m ∈ entryMismatches actual 0 (.entry p sha sz)) :
    ∀ idx, m ∈ entriesMismatches actual idx entries := by
  induction entries with
  | nil => cases he
  | cons e rest ih =>
    intro idx
    rcases List.mem_cons.mp he with h | h
    · subst h
      exact List.mem_append_left _
        ((entryMismatches_idx_irrel actual idx 0 p sha sz) ▸ hm)
    · exact List.mem_append_right _ (ih h (idx + 1))

theorem sha_mismatch_mem_entryMismatches
    {actual : String → Option FileEntry} {p declared : String}
    {sz : Option Int} {fe : FileEntry} (hl : actual p = some fe)
    (hsha : fe.sha256 ≠ declared) :
    (⟨"sha256_mismatch", p⟩ : Mismatch) ∈
      entryMismatches actual 0 (.entry p (some declared) sz) := by
  simp only [entryMismatches, hl]
  exact List.mem_append_left _ (by simp [hsha])

theorem entriesMismatches_nil_of_clean
    {af : List FileEntry} {entries : List ManifestEntry}
    (hc : ∀ e ∈ entries, ∃ p fe,
      e = ManifestEntry.entry p (some fe.sha256) (some (fe.size_bytes : Int)) ∧
      dictLast af p = some fe) :
    ∀ idx, entriesMismatches (dictLast af) idx entries = [] := by
  induction entries with
  | nil => intro idx; rfl
  | cons e rest ih =>
    intro idx
    obtain ⟨p, fe, he, hl⟩ := hc e (List.mem_cons_self e rest)
    have hrest := ih (fun x hx => hc x (List.mem_cons_of_mem e hx))
    subst he
    simp [entriesMismatches, entryMismatches, hl, hrest]

theorem unexpectedMismatches_nil_of_cover {af : List FileEntry}
    {expected : List String}
    (hx : ∀ f ∈ af, f.path = "case/CASE_MANIFEST.json" ∨ f.path ∈ expected) :
    unexpectedMismatches af expected = [] := by
  simp only [unexpectedMismatches, List.map_eq_nil_iff]
  rw [List.filter_eq_nil_iff]
  intro p hp
  have hmem : p ∈ af.map (fun f => f.path) := mem_sortedDedup.mp hp
  obtain ⟨f, hf, rfl⟩ := List.mem_map.mp hmem
  rcases hx f hf with h | h <;> simp [h]

/-- C1: integrity status is `passed` iff the mismatch list is empty; a
manifest entry whose declared sha256 differs from the recomputed hash of the
extracted file at path `p` yields status `failed` with a `sha256_mismatch`
for `p`; and a bundle whose every manifest entry matches its extracted file
exactly (path, sha256, size), with no extra files and no schema errors, has
an empty mismatch list. -/
theorem c1_integrity_passed_iff_clean :
    (∀ se mf af, (build_integrity se mf af).status = "passed" ↔
        (build_integrity se mf af).mismatches = [])
    ∧ (∀ se entries af p declared sz fe,
        ManifestEntry.entry p (some declared) sz ∈ entries →
        dictLast af p = some fe → fe.sha256 ≠ declared →
          (build_integrity se (.list entries) af).status = "failed" ∧
          (⟨"sha256_mismatch", p⟩ : Mismatch) ∈
            (build_integrity se (.list entries) af).mismatches)
    ∧ (∀ entries af,
        (∀ e ∈ entries, ∃ p fe,
          e = ManifestEntry.entry p (some fe.sha256) (some (fe.size_bytes : Int)) ∧
          dictLast af p = some fe) →
        (∀ f ∈ af, f.path = "case/CASE_MANIFEST.json" ∨
          f.path ∈ expectedPaths entries) →
          (build_integrity [] (.list entries) af).mismatches = [] ∧
          (build_integrity [] (.list entries) af).status = "passed") := by
  refine ⟨build_integrity_status_iff, ?_, ?_⟩
  · intro se entries af p declared sz fe he hl hsha
    have hmem : (⟨"sha256_mismatch", p⟩ : Mismatch) ∈
        (build_integrity se (.list entries) af).mismatches := by
      simp only [build_integrity]
      exact List.mem_append_left _ (List.mem_append_right _
        (mem_entriesMismatches_of_entry (dictLast af)
          he (sha_mismatch_mem_entryMismatches hl hsha) 0))
    refine ⟨?_, hmem⟩
    have hne : (build_integrity se (.list entries) af).mismatches ≠ [] := by
      intro h0
      rw [h0] at hmem
      cases hmem
    have := build_integrity_status_iff se (.list entries) af
    simp only [build_integrity] at this hne ⊢
    split at this <;> split <;> simp_all
  · intro entries af hc hx
    have h1 : schemaErrorMismatches [] = [] := by
      simp [schemaErrorMismatches, pySortStr]
    have h2 := entriesMismatches_nil_of_clean hc 0
    have h3 : unexpectedMismatches af (expectedPaths entries) = [] :=
      unexpectedMismatches_nil_of_cover hx
    constructor
    · simp [build_integrity, h1, h2, h3, schemaErrorMismatches, pySortStr]
    · simp [build_integrity, h1, h2, h3, schemaErrorMismatches, pySortStr]

/-- Witness for C1: a one-file bundle whose declared hash differs from the
recomputed hash fails with a `sha256_mismatch` for that path, and the same
bundle with the correct declared hash has no mismatches. -/
theorem c1_witness :
    ((build_integrity [] (.list [ManifestEntry.entry "X" (some "aa") (some 3)])
        [⟨"X", "bb", 3⟩]).status = "failed" ∧
      (⟨"sha256_mismatch", "X"⟩ : Mismatch) ∈
        (build_integrity [] (.list [ManifestEntry.entry "X" (some "aa") (some 3)])
          [⟨"X", "bb", 3⟩]).mismatches)
    ∧ ((build_integrity [] (.list [ManifestEntry.entry "X" (some "bb") (some 3)])
        [⟨"X", "bb", 3⟩]).mismatches = [] ∧
      (build_integrity [] (.list [ManifestEntry.entry "X" (some "bb") (some 3)])
        [⟨"X", "bb", 3⟩]).status = "passed") :=
  ⟨c1_integrity_passed_iff_clean.2.1 [] _ [⟨"X", "bb", 3⟩] "X" "aa" (some 3)
      ⟨"X", "bb", 3⟩ (List.mem_singleton.mpr rfl) (by decide) (by decide),
    c1_integrity_passed_iff_clean.2.2 _ [⟨"X", "bb", 3⟩]
      (by
        intro e he
        refine ⟨"X", ⟨"X", "bb", 3⟩, ?_, by decide⟩
        simp at he
        simp [he])
      (by
        intro f hf
        simp at hf
        subst hf
        simp [expectedPaths])⟩

/-- One element of the manifest `files` list as the dopetask
`_validate_manifest_integrity` sees it: a non-dict element, or an entry
whose `path` is `none` when it was not a string. -/
inductive DtManifestEntry where
  | invalid : DtManifestEntry
  | entry (path : Option String) (sha256 : Option String)
      (size_bytes : Option Int) : DtManifestEntry
deriving DecidableEq

/-- `manifest_data.get("files", [])` in the dopetask checker: a missing key
defaults to the empty list; a present non-list value is `notList`. -/
inductive DtManifestFiles where
  | notList : DtManifestFiles
  | list (entries : List DtManifestEntry) : DtManifestFiles
deriving DecidableEq

/-- Mismatches of one manifest entry in the dopetask
`_validate_manifest_integrity` loop.  `files` is the index of extracted
regular files standing for the on-disk payload the checker re-hashes. -/
def dtEntryMismatches (files : List FileEntry) : DtManifestEntry → List Mismatch
  | .invalid => [⟨"manifest_entry_invalid", "case/CASE_MANIFEST.json"⟩]
  | .entry none _ _ => [⟨"manifest_path_invalid", "case/CASE_MANIFEST.json"⟩]
  | .entry (some p) sha sz =>
    if p = "" then [⟨"manifest_path_invalid", "case/CASE_MANIFEST.json"⟩]
    else
      match files.find? (fun f => f.path == p) with
      | none => [⟨"missing_file", p⟩]
      | some fe =>
        (match sha with
          | some s => if fe.sha256 ≠ s then [⟨"sha256_mismatch", p⟩] else []
          | none => []) ++
        (match sz with
          | some n => if (fe.size_bytes : Int) ≠ n then [⟨"size_mismatch", p⟩] else []
          | none => [])

/-- The dopetask entry loop. -/
def dtEntriesMismatches (files : List FileEntry) :
    List DtManifestEntry → List Mismatch
  | [] => []
  | e :: rest => dtEntryMismatches files e ++ dtEntriesMismatches files rest

/-- `_validate_manifest_integrity` from
`dopetask/pipeline/bundle/ingester.py`. -/
def dt_validate_manifest_integrity (files : List FileEntry) :
    DtManifestFiles → IntegrityResult
  | .notList => ⟨"failed", 1, [⟨"manifest_files_invalid", "case/CASE_MANIFEST.json"⟩]⟩
  | .list entries =>
    let ms := dtEntriesMismatches files entries
    ⟨if ms.isEmpty then "passed" else "failed", ms.length, ms⟩

theorem schemaErrorMismatches_mem {se : List String} {m : Mismatch}
    (hm : m ∈ schemaErrorMismatches se) :
    m = ⟨"schema_validation_failed", "case/CASE_MANIFEST.json"⟩ := by
  simp only [schemaErrorMismatches, List.mem_map] at hm
  obtain ⟨a, _, rfl⟩ := hm
  rfl

theorem entriesMismatches_code_ne_unexpected
    (actual : String → Option FileEntry) (entries : List ManifestEntry) :
    ∀ idx, ∀ m ∈ entriesMismatches actual idx entries,
      m.code ≠ "unexpected_file" := by
  induction entries with
  | nil => intro idx m hm; cases hm
  | cons e rest ih =>
    intro idx m hm
    rcases List.mem_append.mp hm with h | h
    · cases e with
      | invalid =>
        simp only [entryMismatches, List.mem_singleton] at h
        simp [h]
      | noPath =>
        simp only [entryMismatches, List.mem_singleton] at h
        simp [h]
      | entry p sha sz =>
        cases hap : actual p with
        | none =>
          simp only [entryMismatches, hap, List.mem_singleton] at h
          simp [h]
        | some fe =>
          simp only [entryMismatches, hap] at h
          rcases List.mem_append.mp h with h2 | h2
          · cases sha with
            | none => simp at h2
            | some s =>
              by_cases hs : fe.sha256 ≠ s
              · simp only [if_pos hs, List.mem_singleton] at h2
                simp [h2]
              · simp [if_neg hs] at h2
          · cases sz with
            | none => simp at h2
            | some n =>
              by_cases hn : (fe.size_bytes : Int) ≠ n
              · simp only [if_pos hn, List.mem_singleton] at h2
                simp [h2]
              · simp [if_neg hn] at h2
    · exact ih (idx + 1) m h

theorem unexpectedMismatches_mem {af : List FileEntry}
    {expected : List String} {m : Mismatch}
    (hm : m ∈ unexpectedMismatches af expected) :
    m.code = "unexpected_file" ∧ m.path ∉ expected ∧
      m.path ≠ "case/CASE_MANIFEST.json" := by
  simp only [unexpectedMismatches, List.mem_map] at hm
  obtain ⟨p, hp, rfl⟩ := hm
  have h2 := (List.mem_filter.mp hp).2
  have h : p ∉ expected ∧ p ≠ "case/CASE_MANIFEST.json" := of_decide_eq_true h2
  exact ⟨rfl, h.1, h.2⟩

theorem dtEntriesMismatches_code_ne_unexpected (files : List FileEntry)
    (entries : List DtManifestEntry) :
    ∀ m ∈ dtEntriesMismatches files entries, m.code ≠ "unexpected_file" := by
  induction entries with
  | nil => intro m hm; cases hm
  | cons e rest ih =>
    intro m hm
    rcases List.mem_append.mp hm with h | h
    · cases e with
      | invalid =>
        simp only [dtEntryMismatches, List.mem_singleton] at h
        simp [h]
      | entry po sha sz =>
        cases po with
        | none =>
          simp only [dtEntryMismatches, List.mem_singleton] at h
          simp [h]
        | some p =>
          by_cases hp : p = ""
          · simp only [dtEntryMismatches, if_pos hp, List.mem_singleton] at h
            simp [h]
          · simp only [dtEntryMismatches, if_neg hp] at h
            cases hfp : files.find? (fun f => f.path == p) with
            | none =>
              simp only [hfp, List.mem_singleton] at h
              simp [h]
            | some fe =>
              simp only [hfp] at h
              rcases List.mem_append.mp h with h2 | h2
              · cases sha with
                | none => simp at h2
                | some s =>
                  by_cases hs : fe.sha256 ≠ s
                  · simp only [if_pos hs, List.mem_singleton] at h2
                    simp [h2]
                  · simp [if_neg hs] at h2
              · cases sz with
                | none => simp at h2
                | some n =>
                  by_cases hn : (fe.size_bytes : Int) ≠ n
                  · simp only [if_pos hn, List.mem_singleton] at h2
                    simp [h2]
                  · simp [if_neg hn] at h2
    · exact ih m h

/-- Counterexample for C4: in the dopetask implementation
(`_validate_manifest_integrity`), an extracted file `extra.txt` that appears
in no manifest entry is not reported at all — the check passes with zero
mismatches, so no `unexpected_file` mismatch is ever produced there. -/
theorem c4_counterexample :
    dt_validate_manifest_integrity
        [⟨"extra.txt", "aa", 1⟩, ⟨"case/CASE_MANIFEST.json", "bb", 2⟩]
        (.list []) = ⟨"passed", 0, []⟩ ∧
    (⟨"unexpected_file", "extra.txt"⟩ : Mismatch) ∉
      (dt_validate_manifest_integrity
        [⟨"extra.txt", "aa", 1⟩, ⟨"case/CASE_MANIFEST.json", "bb", 2⟩]
        (.list [])).mismatches := by
  constructor
  · rfl
  · intro h
    cases h

/-- C4 amended: in the taskx implementation, every extracted file whose path
is absent from the manifest entries (the manifest file itself excepted) is
flagged `unexpected_file`, and an `unexpected_file` mismatch never names the
manifest file; the dopetask implementation performs no unexpected-file check
and never emits that code. -/
theorem c4_unexpected_file_amended :
    (∀ se entries af p, p ∈ af.map (fun f => f.path) →
      p ∉ expectedPaths entries → p ≠ "case/CASE_MANIFEST.json" →
      (⟨"unexpected_file", p⟩ : Mismatch) ∈
        (build_integrity se (.list entries) af).mismatches)
    ∧ (∀ se mf af, ∀ m ∈ (build_integrity se mf af).mismatches,
        m.code = "unexpected_file" → m.path ≠ "case/CASE_MANIFEST.json")
    ∧ (∀ files mf, ∀ m ∈ (dt_validate_manifest_integrity files mf).mismatches,
        m.code ≠ "unexpected_file") := by
  refine ⟨?_, ?_, ?_⟩
  · intro se entries af p hp hnx hnm
    simp only [build_integrity]
    refine List.mem_append_right _ ?_
    simp only [unexpectedMismatches, List.mem_map]
    refine ⟨p, ?_, rfl⟩
    refine List.mem_filter.mpr ⟨mem_sortedDedup.mpr hp, ?_⟩
    simp [hnx, hnm]
  · intro se mf af m hm hcode
    cases mf with
    | notList =>
      simp only [build_integrity] at hm
      rcases List.mem_append.mp hm with h | h
      · rw [schemaErrorMismatches_mem h] at hcode
        exact absurd hcode (by decide)
      · simp only [List.mem_singleton] at h
        rw [h] at hcode
        exact absurd hcode (by decide)
    | list entries =>
      simp only [build_integrity] at hm
      rcases List.mem_append.mp hm with h | h
      · rcases List.mem_append.mp h with h2 | h2
        · rw [schemaErrorMismatches_mem h2] at hcode
          exact absurd hcode (by decide)
        · exact absurd hcode
            (entriesMismatches_code_ne_unexpected (dictLast af) entries 0 m h2)
      · exact (unexpectedMismatches_mem h).2.2
  · intro files mf m hm
    cases mf with
    | notList =>
      simp only [dt_validate_manifest_integrity, List.mem_singleton] at hm
      simp [hm]
    | list entries =>
      exact dtEntriesMismatches_code_ne_unexpected files entries m hm

/-- Witness for C4 amended: a bundle with one unlisted extra file gets an
`unexpected_file` mismatch from the taskx checker. -/
theorem c4_witness :
    (⟨"unexpected_file", "extra.txt"⟩ : Mismatch) ∈
      (build_integrity [] (.list []) [⟨"extra.txt", "aa", 1⟩]).mismatches :=
  c4_unexpected_file_amended.1 [] [] [⟨"extra.txt", "aa", 1⟩] "extra.txt"
    (by decide) (by intro h; cases h) (by decide)

/-- A zip archive member as `_safe_extract` inspects it: entry name,
32-bit external attributes, and whether the entry is a directory. -/
structure ZipEntry where
  filename : String
  external_attr : Nat
  is_dir : Bool
deriving DecidableEq

/-- `Path(name).is_absolute()` on a POSIX path: the name starts with `/`. -/
def startsSlash (s : String) : Bool :=
  match s.data with
  | '/' :: _ => true
  | _ => false

/-- Split a character list on `/` separators. -/
def splitSlash : List Char → List (List Char)
  | [] => [[]]
  | c :: rest =>
    if c = '/' then [] :: splitSlash rest
    else
      match splitSlash rest with
      | [] => [[c]]
      | s :: ss => (c :: s) :: ss

/-- `".." in Path(name).parts`: some `/`-separated segment equals `..`
(pathlib drops empty and `.` segments, which cannot be `..`, so splitting on
`/` detects the same set of names). -/
def hasDotDotSegment (s : String) : Bool :=
  (splitSlash s.data).contains ['.', '.']

/-- `member.is_absolute() or ".." in member.parts`. -/
def pathRejected (e : ZipEntry) : Bool :=
  startsSlash e.filename || hasDotDotSegment e.filename

/-- `(info.external_attr >> 16) & 0o170000 == 0o120000`: the Unix file-type
bits of the external attributes name a symbolic link. -/
def symlinkRejected (e : ZipEntry) : Bool :=
  (e.external_attr >>> 16) &&& 0o170000 == 0o120000

/-- pathlib normalization of a relative entry name: split on `/` and drop
empty and `.` segments (`Path("a//./b").parts == ("a", "b")`). -/
def pathSegs (s : String) : List (List Char) :=
  (splitSlash s.data).filter (fun seg => !seg.isEmpty && seg != ['.'])

/-- Every nonempty prefix of a segment path, the target included: the
directories `Path.mkdir(parents=True)` ensures. -/
def prefixesUpTo (p : List (List Char)) : List (List (List Char)) :=
  (List.range p.length).map (fun k => p.take (k + 1))

/-- `p` is a leading segment sequence of `q`: `p` names `q` itself or an
ancestor directory of `q`. -/
def ancestorOf : List (List Char) → List (List Char) → Bool
  | [], _ => true
  | _ :: _, [] => false
  | a :: as, b :: bs => a == b && ancestorOf as bs

/-- The staging-directory filesystem during `_safe_extract`: which segment
paths currently exist as directories and as regular files.  The staging
root is the empty path and exists as a directory from the start. -/
structure FsState where
  dirs : List (List (List Char))
  files : List (List (List Char))
deriving DecidableEq

/-- `target.mkdir(parents=True, exist_ok=True)`: raises (FileExistsError /
NotADirectoryError) iff some path on the way, the target included, exists
as a regular file; otherwise all those paths become directories. -/
def mkdirParents (p : List (List Char)) (fs : FsState) : Option FsState :=
  if ∃ q ∈ prefixesUpTo p, q ∈ fs.files then none
  else some ⟨fs.dirs ++ prefixesUpTo p, fs.files⟩

/-- `target.open("wb")`: raises (IsADirectoryError) iff the target exists
as a directory; an existing regular file is silently overwritten. -/
def writeFile (p : List (List Char)) (fs : FsState) : Option FsState :=
  if p ∈ fs.dirs then none
  else some ⟨fs.dirs, if p ∈ fs.files then fs.files else fs.files ++ [p]⟩

/-- The extraction loop body of `_safe_extract`: walk the entries (already
sorted by filename), refuse on a rejected path or symlink entry, create
directory entries with `mkdir(parents=True, exist_ok=True)`, and write each
regular file after ensuring its parent directory, recording its entry name.
A raised `ValueError` is `Except.error` with the exact source message; a
raised `OSError` from `mkdir`/`open` (name collisions between entries) is
`Except.error` with a descriptive stand-in message, Python's text being
OS-generated. -/
def extractList (fs : FsState) :
    List ZipEntry → Except String (FsState × List String)
  | [] => .ok (fs, [])
  | e :: rest =>
    if pathRejected e then
      .error ("Unsafe zip entry path: " ++ e.filename)
    else if symlinkRejected e then
      .error ("Symlink entries are not allowed: " ++ e.filename)
    else if e.is_dir then
      match mkdirParents (pathSegs e.filename) fs with
      | none => .error ("Cannot create directory for entry: " ++ e.filename)
      | some fs2 => extractList fs2 rest
    else
      match mkdirParents (pathSegs e.filename).dropLast fs with
      | none => .error ("Cannot create directory for entry: " ++ e.filename)
      | some fs2 =>
        match writeFile (pathSegs e.filename) fs2 with
        | none => .error ("Cannot write file entry: " ++ e.filename)
        | some fs3 =>
          match extractList fs3 rest with
          | .error msg => .error msg
          | .ok pr => .ok (pr.1, e.filename :: pr.2)

/-- `_safe_extract` from `taskx/pipeline/bundle/ingester.py`: iterates
`sorted(archive.infolist(), key=filename)` over an initially empty staging
directory; the result is the names of the regular files written. -/
def safe_extract (entries : List ZipEntry) : Except String (List String) :=
  match extractList ⟨[[]], []⟩
      (entries.insertionSort (fun a b => strLe a.filename b.filename = true)) with
  | .error msg => .error msg
  | .ok pr => .ok pr.2

/-- `".." in filename`: Python substring containment of two dots. -/
def containsDotDot : List Char → Bool
  | [] => false
  | '.' :: '.' :: _ => true
  | _ :: rest => containsDotDot rest

/-- The per-member name screen of dopetask `BundleIngester.extract_bundle`:
`filename.startswith("/") or ".." in filename` — a substring test, not a
path-segment test, and with no symlink-attribute check. -/
def dtNameRejected (e : ZipEntry) : Bool :=
  startsSlash e.filename || containsDotDot e.filename.data

/-- `BundleIngester.extract_bundle` from
`dopetask/pipeline/bundle/ingester.py`: screens every member name first
(raising `ValueError` on the first rejected one, before extracting), then
`extractall` extracts every member directly into `out_dir/<zip stem>` — no
staging area and no symlink check.  The result models the regular files
extracted. -/
def dt_extract_bundle (entries : List ZipEntry) : Except String (List String) :=
  match entries.find? dtNameRejected with
  | some bad => .error ("Malicious filename detected in zip: " ++ bad.filename)
  | none =>
    .ok ((entries.filter (fun e => !e.is_dir)).map (fun e => e.filename))

/-- The files `ingest_bundle` leaves under `output_dir` after its extraction
phase: `_safe_extract` runs inside a `TemporaryDirectory` staging area and
the extracted tree is copied into `output_dir` only after it succeeds, so a
rejected entry leaves nothing behind. -/
def ingest_extracted_files (entries : List ZipEntry) : List String :=
  match safe_extract entries with
  | .error _ => []
  | .ok files => files

theorem ancestorOf_length {p q : List (List Char)}
    (h : ancestorOf p q = true) : p.length ≤ q.length := by
  induction p generalizing q with
  | nil => simp
  | cons a as ih =>
    cases q with
    | nil => simp [ancestorOf] at h
    | cons b bs =>
      simp only [ancestorOf, Bool.and_eq_true] at h
      have := ih h.2
      simp only [List.length_cons]
      omega

theorem ancestorOf_take (p : List (List Char)) :
    ∀ n, ancestorOf (p.take n) p = true := by
  induction p with
  | nil => intro n; cases n <;> rfl
  | cons a as ih =>
    intro n
    cases n with
    | zero => rfl
    | succ m =>
      simp only [List.take_succ_cons, ancestorOf, Bool.and_eq_true]
      exact ⟨by simp, ih m⟩

theorem ancestorOf_refl (p : List (List Char)) : ancestorOf p p = true := by
  induction p with
  | nil => rfl
  | cons a as ih => simp [ancestorOf, ih]

theorem ancestorOf_trans {p q r : List (List Char)}
    (h1 : ancestorOf p q = true) (h2 : ancestorOf q r = true) :
    ancestorOf p r = true := by
  induction p generalizing q r with
  | nil => rfl
  | cons a as ih =>
    cases q with
    | nil => simp [ancestorOf] at h1
    | cons b bs =>
      cases r with
      | nil => simp [ancestorOf] at h2
      | cons c cs =>
        simp only [ancestorOf, Bool.and_eq_true] at h1 h2 ⊢
        have hac : a = c := (eq_of_beq h1.1).trans (eq_of_beq h2.1)
        exact ⟨by simp [hac], ih h1.2 h2.2⟩

theorem ancestorOf_dropLast (p : List (List Char)) :
    ancestorOf p.dropLast p = true := by
  rw [List.dropLast_eq_take]
  exact ancestorOf_take p (p.length - 1)

theorem mem_prefixesUpTo {q p : List (List Char)} (h : q ∈ prefixesUpTo p) :
    ∃ k, k < p.length ∧ q = p.take (k + 1) := by
  simp only [prefixesUpTo, List.mem_map, List.mem_range] at h
  obtain ⟨k, hk, rfl⟩ := h
  exact ⟨k, hk, rfl⟩

theorem prefixesUpTo_ancestor {q p : List (List Char)}
    (h : q ∈ prefixesUpTo p) : ancestorOf q p = true := by
  obtain ⟨k, _, rfl⟩ := mem_prefixesUpTo h
  exact ancestorOf_take p (k + 1)

theorem prefixesUpTo_cases {q p : List (List Char)}
    (h : q ∈ prefixesUpTo p) : q = p ∨ q.length < p.length := by
  obtain ⟨k, hk, rfl⟩ := mem_prefixesUpTo h
  by_cases hlt : k + 1 < p.length
  · right
    rw [List.length_take]
    exact lt_of_le_of_lt (Nat.min_le_left _ _) hlt
  · left
    have hkeq : k + 1 = p.length := by omega
    rw [hkeq]
    exact List.take_length p

theorem extractList_error_of_rejected {l : List ZipEntry}
    {e : ZipEntry} (he : e ∈ l)
    (hr : (pathRejected e || symlinkRejected e) = true) :
    ∀ fs, ∃ msg, extractList fs l = .error msg := by
  induction l with
  | nil => cases he
  | cons a rest ih =>
    intro fs
    by_cases hpa : pathRejected a = true
    · exact ⟨"Unsafe zip entry path: " ++ a.filename,
        by simp [extractList, hpa]⟩
    · by_cases hsa : symlinkRejected a = true
      · exact ⟨"Symlink entries are not allowed: " ++ a.filename,
          by simp [extractList, hpa, hsa]⟩
      · have hrest : e ∈ rest := by
          rcases List.mem_cons.mp he with h | h
          · exfalso
            subst h
            simp [hpa, hsa] at hr
          · exact h
        by_cases hd : a.is_dir = true
        · cases hmk : mkdirParents (pathSegs a.filename) fs with
          | none =>
            exact ⟨"Cannot create directory for entry: " ++ a.filename,
              by simp [extractList, hpa, hsa, hd, hmk]⟩
          | some fs2 =>
            obtain ⟨msg, hmsg⟩ := ih hrest fs2
            exact ⟨msg, by simp [extractList, hpa, hsa, hd, hmk, hmsg]⟩
        · cases hmk : mkdirParents (pathSegs a.filename).dropLast fs with
          | none =>
            exact ⟨"Cannot create directory for entry: " ++ a.filename,
              by simp [extractList, hpa, hsa, hd, hmk]⟩
          | some fs2 =>
            cases hw : writeFile (pathSegs a.filename) fs2 with
            | none =>
              exact ⟨"Cannot write file entry: " ++ a.filename,
                by simp [extractList, hpa, hsa, hd, hmk, hw]⟩
            | some fs3 =>
              obtain ⟨msg, hmsg⟩ := ih hrest fs3
              exact ⟨msg,
                by simp [extractList, hpa, hsa, hd, hmk, hw, hmsg]⟩

/-- Directory-set invariant of the staged extraction: every existing
directory is the staging root or a proper leading segment sequence of some
entry path (a created parent), or the full path of a directory entry. -/
def dirsInv (L : List ZipEntry) (dirs : List (List (List Char))) : Prop :=
  ∀ q ∈ dirs, q = [] ∨ ∃ f ∈ L,
    (ancestorOf q (pathSegs f.filename) = true ∧ q ≠ pathSegs f.filename) ∨
    (f.is_dir = true ∧ q = pathSegs f.filename)

/-- File-set invariant of the staged extraction: every existing regular
file is the normalized path of some regular-file entry. -/
def filesInv (L : List ZipEntry) (files : List (List (List Char))) : Prop :=
  ∀ p ∈ files, ∃ e ∈ L, e.is_dir = false ∧ p = pathSegs e.filename

theorem extract_ok_aux (L : List ZipEntry)
    (hne : ∀ e ∈ L, e.is_dir = false → pathSegs e.filename ≠ [])
    (hcol : ∀ e ∈ L, ∀ f ∈ L, e.is_dir = false →
      ancestorOf (pathSegs e.filename) (pathSegs f.filename) = true →
      pathSegs f.filename = pathSegs e.filename ∧ f.is_dir = false) :
    ∀ l : List ZipEntry, (∀ e ∈ l, e ∈ L) →
      (∀ e ∈ l, pathRejected e = false ∧ symlinkRejected e = false) →
      ∀ fs : FsState, dirsInv L fs.dirs → filesInv L fs.files →
      ∃ pr, extractList fs l = .ok pr ∧
        ∀ e ∈ l, e.is_dir = false → e.filename ∈ pr.2 := by
  intro l
  induction l with
  | nil =>
    intro _ _ fs _ _
    exact ⟨(fs, []), rfl, by intro e he; cases he⟩
  | cons a rest ih =>
    intro hsub hsafe fs hdirs hfiles
    have haL : a ∈ L := hsub a (List.mem_cons_self a rest)
    obtain ⟨ha1, ha2⟩ := hsafe a (List.mem_cons_self a rest)
    by_cases hd : a.is_dir = true
    · have hno : ¬ ∃ q ∈ prefixesUpTo (pathSegs a.filename), q ∈ fs.files := by
        rintro ⟨q, hq, hqf⟩
        obtain ⟨e0, he0L, he0nd, hq0⟩ := hfiles q hqf
        have hanc : ancestorOf (pathSegs e0.filename)
            (pathSegs a.filename) = true := by
          rw [← hq0]
          exact prefixesUpTo_ancestor hq
        have hfd := (hcol e0 he0L a haL he0nd hanc).2
        simp [hfd] at hd
      have hmk : mkdirParents (pathSegs a.filename) fs =
          some ⟨fs.dirs ++ prefixesUpTo (pathSegs a.filename), fs.files⟩ := by
        unfold mkdirParents
        rw [if_neg hno]
      have hdirs2 : dirsInv L (fs.dirs ++ prefixesUpTo (pathSegs a.filename)) := by
        intro q hq
        rcases List.mem_append.mp hq with h | h
        · exact hdirs q h
        · right
          refine ⟨a, haL, ?_⟩
          rcases prefixesUpTo_cases h with heq | hlt
          · exact Or.inr ⟨hd, heq⟩
          · refine Or.inl ⟨prefixesUpTo_ancestor h, ?_⟩
            intro hqe
            rw [hqe] at hlt
            omega
      obtain ⟨pr, hok, hmem⟩ := ih
        (fun e he => hsub e (List.mem_cons_of_mem a he))
        (fun e he => hsafe e (List.mem_cons_of_mem a he))
        ⟨fs.dirs ++ prefixesUpTo (pathSegs a.filename), fs.files⟩
        hdirs2 hfiles
      refine ⟨pr, ?_, ?_⟩
      · simp [extractList, ha1, ha2, hd, hmk, hok]
      · intro e he hnd
        rcases List.mem_cons.mp he with h | h
        · subst h
          rw [hd] at hnd
          cases hnd
        · exact hmem e h hnd
    · have hdf : a.is_dir = false := by
        cases hcase : a.is_dir
        · rfl
        · exact absurd hcase hd
      have hner : pathSegs a.filename ≠ [] := hne a haL hdf
      have hlenpos : (pathSegs a.filename).length ≠ 0 := by
        intro h0
        exact hner (List.length_eq_zero.mp h0)
      have hnop : ¬ ∃ q ∈ prefixesUpTo (pathSegs a.filename).dropLast,
          q ∈ fs.files := by
        rintro ⟨q, hq, hqf⟩
        obtain ⟨e0, he0L, he0nd, hq0⟩ := hfiles q hqf
        have h1 : ancestorOf q (pathSegs a.filename).dropLast = true :=
          prefixesUpTo_ancestor hq
        have h2 : ancestorOf (pathSegs e0.filename)
            (pathSegs a.filename) = true := by
          rw [← hq0]
          exact ancestorOf_trans h1 (ancestorOf_dropLast _)
        have hcl := hcol e0 he0L a haL he0nd h2
        have hqa : q = pathSegs a.filename := by rw [hq0, ← hcl.1]
        have hlen1 : q.length ≤ (pathSegs a.filename).dropLast.length :=
          ancestorOf_length h1
        rw [hqa, List.length_dropLast] at hlen1
        omega
      have hmk : mkdirParents (pathSegs a.filename).dropLast fs =
          some ⟨fs.dirs ++ prefixesUpTo (pathSegs a.filename).dropLast,
            fs.files⟩ := by
        unfold mkdirParents
        rw [if_neg hnop]
      have hnw : pathSegs a.filename ∉
          fs.dirs ++ prefixesUpTo (pathSegs a.filename).dropLast := by
        intro hmem2
        rcases List.mem_append.mp hmem2 with h | h
        · rcases hdirs _ h with h0 | ⟨f, hfL, hcase⟩
          · exact hner h0
          · rcases hcase with ⟨hanc, hneq⟩ | ⟨hfdir, heqp⟩
            · exact hneq (hcol a haL f hfL hdf hanc).1.symm
            · have hanc : ancestorOf (pathSegs a.filename)
                  (pathSegs f.filename) = true := by
                rw [← heqp]
                exact ancestorOf_refl _
              have := (hcol a haL f hfL hdf hanc).2
              simp [this] at hfdir
        · have hl1 : (pathSegs a.filename).length ≤
              (pathSegs a.filename).dropLast.length :=
            ancestorOf_length (prefixesUpTo_ancestor h)
          rw [List.length_dropLast] at hl1
          omega
      have hw : writeFile (pathSegs a.filename)
          ⟨fs.dirs ++ prefixesUpTo (pathSegs a.filename).dropLast, fs.files⟩ =
          some ⟨fs.dirs ++ prefixesUpTo (pathSegs a.filename).dropLast,
            if pathSegs a.filename ∈ fs.files then fs.files
            else fs.files ++ [pathSegs a.filename]⟩ := by
        unfold writeFile
        rw [if_neg hnw]
      have hdirs2 : dirsInv L
          (fs.dirs ++ prefixesUpTo (pathSegs a.filename).dropLast) := by
        intro q hq
        rcases List.mem_append.mp hq with h | h
        · exact hdirs q h
        · right
          refine ⟨a, haL, Or.inl ⟨?_, ?_⟩⟩
          · exact ancestorOf_trans (prefixesUpTo_ancestor h)
              (ancestorOf_dropLast _)
          · intro hqe
            have hl1 : q.length ≤ (pathSegs a.filename).dropLast.length :=
              ancestorOf_length (prefixesUpTo_ancestor h)
            rw [hqe, List.length_dropLast] at hl1
            omega
      have hfiles2 : filesInv L
          (if pathSegs a.filename ∈ fs.files then fs.files
            else fs.files ++ [pathSegs a.filename]) := by
        split
        · exact hfiles
        · intro p hp
          rcases List.mem_append.mp hp with h | h
          · exact hfiles p h
          · rw [List.mem_singleton] at h
            exact ⟨a, haL, hdf, h⟩
      obtain ⟨pr, hok, hmem⟩ := ih
        (fun e he => hsub e (List.mem_cons_of_mem a he))
        (fun e he => hsafe e (List.mem_cons_of_mem a he))
        ⟨fs.dirs ++ prefixesUpTo (pathSegs a.filename).dropLast,
          if pathSegs a.filename ∈ fs.files then fs.files
          else fs.files ++ [pathSegs a.filename]⟩
        hdirs2 hfiles2
      refine ⟨(pr.1, a.filename :: pr.2), ?_, ?_⟩
      · simp [extractList, ha1, ha2, hd, hmk, hw, hok]
      · intro e he hnd
        rcases List.mem_cons.mp he with h | h
        · subst h
          exact List.mem_cons_self _ _
        · exact List.mem_cons_of_mem _ (hmem e h hnd)

/-- Counterexample for C3: in dopetask `BundleIngester.extract_bundle`, a
symlink-bit entry is not rejected — it extracts without error, directly
into the output directory — and a benign name containing `..` as a mere
substring (`notes..txt`, not a traversal segment) is rejected, so extraction
does not succeed for every entry of an archive with none of the claimed-bad
entry kinds; in the taskx `_safe_extract`, two safe entries whose names
collide (file `a`, then `a/b` needing `a` as a directory) make extraction
fail, so clean archives do not extract unconditionally either. -/
theorem c3_counterexample :
    symlinkRejected ⟨"link", 2684354560, false⟩ = true
    ∧ dt_extract_bundle [⟨"link", 2684354560, false⟩] = .ok ["link"]
    ∧ pathRejected ⟨"notes..txt", 0, false⟩ = false
    ∧ symlinkRejected ⟨"notes..txt", 0, false⟩ = false
    ∧ dt_extract_bundle [⟨"notes..txt", 0, false⟩] =
        .error ("Malicious filename detected in zip: notes..txt")
    ∧ ([⟨"a", 0, false⟩, ⟨"a/b", 0, false⟩] : List ZipEntry).all
        (fun e => !pathRejected e && !symlinkRejected e) = true
    ∧ safe_extract [⟨"a", 0, false⟩, ⟨"a/b", 0, false⟩] =
        .error ("Cannot create directory for entry: a/b") := by
  refine ⟨by decide, by rfl, by decide, by decide, by rfl, by decide, by rfl⟩

/-- C3 amended: in the taskx `ingest_bundle`, a zip containing an entry
with an absolute path, a `..` traversal segment, or the symlink
external-attribute bit makes extraction fail and leaves no extracted file
under `output_dir` (isolated staging discarded); a zip with none of these
kinds whose entries also do not collide (no regular-file entry has an empty
normalized path or a path that is a leading segment sequence of a different
entry path) extracts successfully, every regular-file entry included.  The
dopetask `extract_bundle` instead raises exactly when some member name is
absolute or contains `..` anywhere as a substring — with no symlink check —
and otherwise extracts every member directly into the output directory. -/
theorem c3_hardened_extraction_amended :
    (∀ entries : List ZipEntry, ∀ e ∈ entries,
      (pathRejected e || symlinkRejected e) = true →
        (∃ msg, safe_extract entries = .error msg) ∧
        ingest_extracted_files entries = [])
    ∧ (∀ entries : List ZipEntry,
      (∀ e ∈ entries, pathRejected e = false ∧ symlinkRejected e = false) →
      (∀ e ∈ entries, e.is_dir = false → pathSegs e.filename ≠ []) →
      (∀ e ∈ entries, ∀ f ∈ entries, e.is_dir = false →
        ancestorOf (pathSegs e.filename) (pathSegs f.filename) = true →
        pathSegs f.filename = pathSegs e.filename ∧ f.is_dir = false) →
        ∃ files, safe_extract entries = .ok files ∧
          ∀ e ∈ entries, e.is_dir = false → e.filename ∈ files)
    ∧ (∀ entries : List ZipEntry, ∀ e ∈ entries, dtNameRejected e = true →
        ∃ msg, dt_extract_bundle entries = .error msg)
    ∧ (∀ entries : List ZipEntry, (∀ e ∈ entries, dtNameRejected e = false) →
        dt_extract_bundle entries =
          .ok ((entries.filter (fun e => !e.is_dir)).map (fun e => e.filename))) := by
  refine ⟨?_, ?_, ?_, ?_⟩
  · intro entries e he hr
    have hm : e ∈ entries.insertionSort
        (fun a b => strLe a.filename b.filename = true) :=
      (List.mem_insertionSort _).mpr he
    obtain ⟨msg, hmsg⟩ := extractList_error_of_rejected hm hr ⟨[[]], []⟩
    have hse : safe_extract entries = .error msg := by
      unfold safe_extract
      rw [hmsg]
    refine ⟨⟨msg, hse⟩, ?_⟩
    unfold ingest_extracted_files
    rw [hse]
  · intro entries hsafe hne hcol
    have hmm : ∀ e, e ∈ entries.insertionSort
        (fun a b => strLe a.filename b.filename = true) ↔ e ∈ entries :=
      fun e => List.mem_insertionSort _
    obtain ⟨pr, hok, hmem⟩ := extract_ok_aux
      (entries.insertionSort (fun a b => strLe a.filename b.filename = true))
      (fun e he => hne e ((hmm e).mp he))
      (fun e he f hf hed hanc =>
        hcol e ((hmm e).mp he) f ((hmm f).mp hf) hed hanc)
      (entries.insertionSort (fun a b => strLe a.filename b.filename = true))
      (fun e he => he)
      (fun e he => hsafe e ((hmm e).mp he))
      ⟨[[]], []⟩
      (by
        intro q hq
        rw [List.mem_singleton] at hq
        exact Or.inl hq)
      (by intro p hp; cases hp)
    refine ⟨pr.2, ?_, ?_⟩
    · unfold safe_extract
      rw [hok]
    · intro e he hnd
      exact hmem e ((hmm e).mpr he) hnd
  · intro entries e he hr
    have hs : (entries.find? dtNameRejected).isSome = true := by
      rw [List.find?_isSome]
      exact ⟨e, he, hr⟩
    cases hf : entries.find? dtNameRejected with
    | none =>
      rw [hf] at hs
      cases hs
    | some bad =>
      exact ⟨"Malicious filename detected in zip: " ++ bad.filename,
        by simp [dt_extract_bundle, hf]⟩
  · intro entries hall
    have hf : entries.find? dtNameRejected = none :=
      List.find?_eq_none.mpr (fun e he => by simp [hall e he])
    simp [dt_extract_bundle, hf]

/-- Witness for C3 amended: a zip with a `..` traversal entry leaves
nothing under the output directory. -/
theorem c3_witness :
    ingest_extracted_files [⟨"a/../evil.txt", 0, false⟩] = [] :=
  (c3_hardened_extraction_amended.1 [⟨"a/../evil.txt", 0, false⟩]
      ⟨"a/../evil.txt", 0, false⟩ (List.mem_singleton.mpr rfl) (by decide)).2

/-- One element of `route_plan["steps"]` as `build_handoff_chunks` sees it:
either not a dict, or a dict whose `step`/`runner`/`model` keys hold a
string when present (`none` models a missing key). -/
inductive PlanStep where
  | invalid : PlanStep
  | dict (step runner model : Option String) : PlanStep
deriving DecidableEq

/-- One handoff chunk, the dict appended by `build_handoff_chunks`. -/
structure HandoffChunk where
  step : String
  runner_id : String
  model_id : String
  instructions_block : String
  expected_artifacts : List String
  resume_command : String
deriving DecidableEq

/-- `str(value or default)` for an optional string value: Python `or` falls
back on a missing/falsy (empty) value. -/
def orDefault (v : Option String) (dflt : String) : String :=
  match v with
  | none => dflt
  | some s => if s = "" then dflt else s

/-- `_map_runner_id` from `dopetask/orchestrator/handoff.py`. -/
def map_runner_id (runner_id : String) : String :=
  if runner_id = "codex_desktop" then "codex-cli"
  else if runner_id = "claude_code" then "claude-code"
  else if runner_id = "copilot_cli" then "copilot-cli"
  else runner_id

/-- ASCII lowercase-to-uppercase pairs. -/
def upperPairs : List (Char × Char) :=
  [('a', 'A'), ('b', 'B'), ('c', 'C'), ('d', 'D'), ('e', 'E'), ('f', 'F'),
   ('g', 'G'), ('h', 'H'), ('i', 'I'), ('j', 'J'), ('k', 'K'), ('l', 'L'),
   ('m', 'M'), ('n', 'N'), ('o', 'O'), ('p', 'P'), ('q', 'Q'), ('r', 'R'),
   ('s', 'S'), ('t', 'T'), ('u', 'U'), ('v', 'V'), ('w', 'W'), ('x', 'X'),
   ('y', 'Y'), ('z', 'Z')]

/-- Python `str.upper()` restricted to ASCII (the normalizer's regex class
`[^A-Za-z0-9]` is ASCII-only, and Unicode uppercasing never produces ASCII
characters relevant here). -/
def pyUpperChar (c : Char) : Char :=
  (((upperPairs.find? (fun p => p.1 == c)).map (fun p => p.2)).getD c)

/-- `str.upper()` over a whole string. -/
def pyUpper (s : String) : String :=
  ⟨s.data.map pyUpperChar⟩

/-- `re.sub(r"[^A-Za-z0-9]+", "_", s)` step one: map each character outside
`[A-Za-z0-9]` to `_`. -/
def keepAlnum (c : Char) : Char :=
  if c.isAlphanum then c else '_'

/-- `re.sub(r"[^A-Za-z0-9]+", "_", s)` step two: collapse each run of `_`
into a single `_` (together with `keepAlnum` this equals replacing each
maximal run of non-alphanumerics by one underscore). -/
def squashUnderscores : List Char → List Char
  | [] => []
  | [c] => [c]
  | a :: b :: rest =>
    if a = '_' ∧ b = '_' then squashUnderscores (b :: rest)
    else a :: squashUnderscores (b :: rest)

/-- Python `str.strip("_")`. -/
def stripUnderscores (l : List Char) : List Char :=
  ((l.dropWhile (fun c => c = '_')).reverse.dropWhile (fun c => c = '_')).reverse

/-- `_normalize_step_token` from `dopetask/orchestrator/handoff.py`:
uppercase the stripped name, replace maximal non-alphanumeric runs by `_`,
strip underscores, and fall back on `"STEP"` if nothing is left. -/
def normalize_step_token (step : String) : String :=
  if (stripUnderscores (squashUnderscores
      ((pyUpper (pyStrip step)).data.map keepAlnum))).isEmpty then "STEP"
  else ⟨stripUnderscores (squashUnderscores
      ((pyUpper (pyStrip step)).data.map keepAlnum))⟩

/-- The body of the `for step in route_plan.get("steps", [])` loop of
`build_handoff_chunks`: skip non-dict entries and entries whose stripped
step name is empty; otherwise emit the chunk. -/
def buildChunks (packet_path run_dir resume_command : String) :
    List PlanStep → List HandoffChunk
  | [] => []
  | .invalid :: rest => buildChunks packet_path run_dir resume_command rest
  | .dict step runner model :: rest =>
    let step_name := pyStrip (step.getD "")
    if step_name = "" then buildChunks packet_path run_dir resume_command rest
    else
      let runner_id := map_runner_id (orDefault runner "unknown")
      let model_id := orDefault model "unspecified"
      let sentinel_name := "STEP_" ++ normalize_step_token step_name ++ ".DONE"
      let sentinel_path :=
        if run_dir ≠ "" then run_dir ++ "/" ++ sentinel_name else sentinel_name
      let instructions_block :=
        "Runner: " ++ runner_id ++ "\nModel: " ++ model_id ++
        "\nInput: " ++ packet_path ++ "\nOutput dir: " ++ run_dir ++
        "\nAfter completion: create " ++ sentinel_path
      ⟨step_name, runner_id, model_id, instructions_block, [sentinel_name],
        resume_command⟩ ::
        buildChunks packet_path run_dir resume_command rest

/-- `build_handoff_chunks` from `dopetask/orchestrator/handoff.py`.  The
`packet` argument is deleted unused by the source; `packet_path` and
`run_dir` are the stringified route-plan fields. -/
def build_handoff_chunks (packet_path run_dir : String)
    (steps : List PlanStep) : List HandoffChunk :=
  buildChunks packet_path run_dir
    (pyStrip ("dopetask orchestrate " ++ packet_path)) steps

/-- The block list of `render_handoff_chunks`: numbered headers, the
instruction block, and an empty separator line between chunks. -/
def renderBlocks (total : Nat) : Nat → List HandoffChunk → List String
  | _, [] => []
  | index, chunk :: rest =>
    let header := "HANDOFF CHUNK " ++ toString index ++ "/" ++ toString total ++
      " (" ++ chunk.step ++ ")"
    if index < total then
      header :: chunk.instructions_block :: "" ::
        renderBlocks total (index + 1) rest
    else
      header :: chunk.instructions_block :: renderBlocks total (index + 1) rest

/-- `render_handoff_chunks` from `dopetask/orchestrator/handoff.py`. -/
def render_handoff_chunks (handoff_chunks : List HandoffChunk) : String :=
  let total := handoff_chunks.length
  if total = 0 then ""
  else String.intercalate "\n" (renderBlocks total 1 handoff_chunks)

/-- The step names the builder keeps, in route-plan order. -/
def validStepNames : List PlanStep → List String
  | [] => []
  | .invalid :: rest => validStepNames rest
  | .dict step _ _ :: rest =>
    let nm := pyStrip (step.getD "")
    if nm = "" then validStepNames rest else nm :: validStepNames rest

/-- Whether the builder keeps this route-plan step entry. -/
def isValidStep : PlanStep → Bool
  | .invalid => false
  | .dict step _ _ => pyStrip (step.getD "") ≠ ""

theorem buildChunks_map_step (pp rd rc : String) (steps : List PlanStep) :
    (buildChunks pp rd rc steps).map (fun c => c.step) = validStepNames steps := by
  induction steps with
  | nil => rfl
  | cons s rest ih =>
    cases s with
    | invalid => simpa [buildChunks, validStepNames] using ih
    | dict step runner model =>
      by_cases h : pyStrip (step.getD "") = ""
      · simpa [buildChunks, validStepNames, h] using ih
      · simpa [buildChunks, validStepNames, h] using ih

theorem buildChunks_length (pp rd rc : String) (steps : List PlanStep) :
    (buildChunks pp rd rc steps).length =
      (steps.filter isValidStep).length := by
  induction steps with
  | nil => rfl
  | cons s rest ih =>
    cases s with
    | invalid => simpa [buildChunks, isValidStep] using ih
    | dict step runner model =>
      by_cases h : pyStrip (step.getD "") = ""
      · simpa [buildChunks, isValidStep, h] using ih
      · simpa [buildChunks, isValidStep, h] using ih

/-- The needle is a prefix of the haystack (character lists). -/
def seqAt : List Char → List Char → Bool
  | [], _ => true
  | _ :: _, [] => false
  | a :: ns, b :: hs => a == b && seqAt ns hs

/-- The needle occurs somewhere in the haystack. -/
def seqFound (needle : List Char) : List Char → Bool
  | [] => needle.isEmpty
  | c :: hs => seqAt needle (c :: hs) || seqFound needle hs

/-- The remainder of the haystack after the first occurrence of the needle. -/
def afterFirst (needle : List Char) : List Char → Option (List Char)
  | [] => if needle.isEmpty then some [] else none
  | c :: hs =>
    if seqAt needle (c :: hs) then some ((c :: hs).drop needle.length)
    else afterFirst needle hs

/-- `a` occurs in the haystack and `b` occurs after that occurrence. -/
def seqInOrder (a b haystack : List Char) : Bool :=
  match afterFirst a haystack with
  | none => false
  | some rest => seqFound b rest

/-- C6: handoff chunks come out in route-plan step order (the chunk step
names are exactly the plan's usable step names, in order), and for the
alpha/beta plan the rendered text contains `HANDOFF CHUNK 1/2 (alpha)`
followed by `HANDOFF CHUNK 2/2 (beta)`. -/
theorem c6_chunk_order_and_render :
    (∀ pp rd steps, (build_handoff_chunks pp rd steps).map (fun c => c.step) =
      validStepNames steps)
    ∧ (build_handoff_chunks "dopetask/packets/demo.md" "dopetask/runs/demo"
        [.dict (some "alpha") (some "codex_desktop") (some "m1"),
         .dict (some "beta") (some "claude_code") (some "m2")]).map
        (fun c => c.step) = ["alpha", "beta"]
    ∧ seqInOrder "HANDOFF CHUNK 1/2 (alpha)".data "HANDOFF CHUNK 2/2 (beta)".data
        (render_handoff_chunks (build_handoff_chunks "dopetask/packets/demo.md"
          "dopetask/runs/demo"
          [.dict (some "alpha") (some "codex_desktop") (some "m1"),
           .dict (some "beta") (some "claude_code") (some "m2")])).data = true := by
  refine ⟨?_, ?_, ?_⟩
  · intro pp rd steps
    exact buildChunks_map_step pp rd _ steps
  · decide
  · decide

/-- C10: the builder skips non-dict entries and entries with a missing,
empty, or whitespace-only step name (chunk count = count of usable steps,
never more than the plan length, with a concrete plan where entries are
skipped), and a plan of only usable steps yields one chunk per step. -/
theorem c10_skips_unusable_steps :
    (∀ pp rd steps, (build_handoff_chunks pp rd steps).length =
      (steps.filter isValidStep).length)
    ∧ (∀ pp rd steps, (build_handoff_chunks pp rd steps).length ≤ steps.length)
    ∧ (build_handoff_chunks "p" "r"
        [.invalid, .dict none none none, .dict (some "   ") none none,
         .dict (some "ok") none none]).length = 1
    ∧ (∀ pp rd steps, (∀ st ∈ steps, isValidStep st = true) →
        (build_handoff_chunks pp rd steps).length = steps.length) := by
  refine ⟨?_, ?_, ?_, ?_⟩
  · intro pp rd steps
    exact buildChunks_length pp rd _ steps
  · intro pp rd steps
    calc (build_handoff_chunks pp rd steps).length
        = (steps.filter isValidStep).length := buildChunks_length pp rd _ steps
      _ ≤ steps.length := List.length_filter_le _ _
  · decide
  · intro pp rd steps hall
    calc (build_handoff_chunks pp rd steps).length
        = (steps.filter isValidStep).length := buildChunks_length pp rd _ steps
      _ = steps.length := by rw [List.filter_eq_self.mpr hall]

/-- Witness for C10: a plan whose only step is usable yields exactly one
chunk. -/
theorem c10_witness :
    (build_handoff_chunks "p" "r" [.dict (some "alpha") none none]).length =
      ([PlanStep.dict (some "alpha") none none] : List PlanStep).length :=
  c10_skips_unusable_steps.2.2.2 "p" "r" [.dict (some "alpha") none none]
    (by decide)

/-- A ten-character ISO-8601 date pattern `DDDD-DD-DD` starts here. -/
def isoDateAt : List Char → Bool
  | d1 :: d2 :: d3 :: d4 :: h1 :: d5 :: d6 :: h2 :: d7 :: d8 :: _ =>
    d1.isDigit && (d2.isDigit && (d3.isDigit && (d4.isDigit && (h1 == '-' &&
      (d5.isDigit && (d6.isDigit && (h2 == '-' && (d7.isDigit && d8.isDigit))))))))
  | _ => false

/-- An eight-character `HH:MM:SS` clock pattern starts here. -/
def timeAt : List Char → Bool
  | a :: b :: c1 :: d :: e :: c2 :: f :: g :: _ =>
    a.isDigit && (b.isDigit && (c1 == ':' && (d.isDigit && (e.isDigit &&
      (c2 == ':' && (f.isDigit && g.isDigit))))))
  | _ => false

/-- The pattern matches at some suffix position. -/
def anyTail (p : List Char → Bool) : List Char → Bool
  | [] => p []
  | c :: rest => p (c :: rest) || anyTail p rest

/-- The string contains an ISO-8601 date substring. -/
def hasIsoDate (s : String) : Bool := anyTail isoDateAt s.data

/-- The string contains an `HH:MM:SS` time substring. -/
def hasClockTime (s : String) : Bool := anyTail timeAt s.data

/-- No character of the string is a decimal digit. -/
def noDigit (s : String) : Prop := ∀ c ∈ s.data, c.isDigit = false

instance (s : String) : Decidable (noDigit s) := by
  unfold noDigit
  infer_instance

/-- The step/runner/model fields of a route-plan step contain no digits. -/
def stepFieldsNoDigit : PlanStep → Prop
  | .invalid => True
  | .dict s r m => noDigit (s.getD "") ∧ noDigit (r.getD "") ∧ noDigit (m.getD "")

instance (st : PlanStep) : Decidable (stepFieldsNoDigit st) := by
  cases st with
  | invalid => exact isTrue trivial
  | dict s r m =>
    unfold stepFieldsNoDigit
    infer_instance

theorem isoDateAt_head_digit {l : List Char} (h : isoDateAt l = true) :
    ∃ c ∈ l, c.isDigit = true := by
  unfold isoDateAt at h
  split at h
  · rename_i d1 d2 d3 d4 h1 d5 d6 h2 d7 d8 tail
    simp only [Bool.and_eq_true] at h
    exact ⟨d1, List.mem_cons_self _ _, h.1⟩
  · cases h

theorem timeAt_head_digit {l : List Char} (h : timeAt l = true) :
    ∃ c ∈ l, c.isDigit = true := by
  unfold timeAt at h
  split at h
  · rename_i a b c1 d e c2 f g tail
    simp only [Bool.and_eq_true] at h
    exact ⟨a, List.mem_cons_self _ _, h.1⟩
  · cases h

theorem anyTail_false_of_noDigit (p : List Char → Bool)
    (hp : ∀ l, p l = true → ∃ c ∈ l, c.isDigit = true) :
    ∀ l : List Char, (∀ c ∈ l, c.isDigit = false) → anyTail p l = false := by
  intro l
  induction l with
  | nil =>
    intro _
    unfold anyTail
    by_cases hpl : p [] = true
    · obtain ⟨c, hc, _⟩ := hp [] hpl
      cases hc
    · simpa using hpl
  | cons c rest ih =>
    intro hd
    unfold anyTail
    have h1 : p (c :: rest) = false := by
      by_cases hpl : p (c :: rest) = true
      · obtain ⟨d, hdm, hdd⟩ := hp _ hpl
        rw [hd d hdm] at hdd
        cases hdd
      · simpa using hpl
    have h2 : anyTail p rest = false :=
      ih (fun d hdm => hd d (List.mem_cons_of_mem c hdm))
    simp [h1, h2]

theorem string_data_append (a b : String) : (a ++ b).data = a.data ++ b.data := rfl

theorem noDigit_append {a b : String} (ha : noDigit a) (hb : noDigit b) :
    noDigit (a ++ b) := by
  intro c hc
  rw [string_data_append] at hc
  rcases List.mem_append.mp hc with h | h
  · exact ha c h
  · exact hb c h

theorem mem_of_mem_dropWhile {p : Char → Bool} {l : List Char} {c : Char}
    (h : c ∈ l.dropWhile p) : c ∈ l :=
  (List.dropWhile_sublist p).mem h

theorem noDigit_pyStrip {s : String} (hs : noDigit s) : noDigit (pyStrip s) := by
  intro c hc
  simp only [pyStrip] at hc
  have h1 : c ∈ (s.data.dropWhile pySpace).reverse.dropWhile pySpace :=
    List.mem_reverse.mp hc
  have h2 : c ∈ (s.data.dropWhile pySpace).reverse := mem_of_mem_dropWhile h1
  have h3 : c ∈ s.data.dropWhile pySpace := List.mem_reverse.mp h2
  exact hs c (mem_of_mem_dropWhile h3)

theorem pyUpperChar_not_digit {c : Char} (h : c.isDigit = false) :
    (pyUpperChar c).isDigit = false := by
  unfold pyUpperChar
  cases hf : upperPairs.find? (fun p => p.1 == c) with
  | none => simpa using h
  | some pr =>
    have hm : pr ∈ upperPairs := List.mem_of_find?_eq_some hf
    show (pr.2).isDigit = false
    fin_cases hm <;> decide

theorem noDigit_pyUpper {s : String} (hs : noDigit s) : noDigit (pyUpper s) := by
  intro c hc
  simp only [pyUpper, List.mem_map] at hc
  obtain ⟨d, hd, rfl⟩ := hc
  exact pyUpperChar_not_digit (hs d hd)

theorem keepAlnum_not_digit {c : Char} (h : c.isDigit = false) :
    (keepAlnum c).isDigit = false := by
  unfold keepAlnum
  split
  · exact h
  · decide

theorem mem_squashUnderscores :
    ∀ {l : List Char} {c : Char}, c ∈ squashUnderscores l → c ∈ l := by
  intro l
  induction l with
  | nil =>
    intro c h
    rw [squashUnderscores] at h
    exact h
  | cons a rest ih =>
    intro c h
    cases rest with
    | nil =>
      rw [squashUnderscores] at h
      exact h
    | cons b rest2 =>
      by_cases hab : a = '_' ∧ b = '_'
      · simp only [squashUnderscores, if_pos hab] at h
        exact List.mem_cons_of_mem a (ih h)
      · simp only [squashUnderscores, if_neg hab] at h
        rcases List.mem_cons.mp h with h2 | h2
        · exact h2 ▸ List.mem_cons_self a _
        · exact List.mem_cons_of_mem a (ih h2)

theorem mem_stripUnderscores {l : List Char} {c : Char}
    (h : c ∈ stripUnderscores l) : c ∈ l := by
  simp only [stripUnderscores] at h
  have h1 := List.mem_reverse.mp h
  have h2 := List.mem_reverse.mp (mem_of_mem_dropWhile h1)
  exact mem_of_mem_dropWhile h2

theorem noDigit_normalize_step_token {s : String} (hs : noDigit s) :
    noDigit (normalize_step_token s) := by
  unfold normalize_step_token
  split
  · decide
  · intro c hc
    have h1 := mem_squashUnderscores (mem_stripUnderscores hc)
    simp only [List.mem_map] at h1
    obtain ⟨d, hd, rfl⟩ := h1
    exact keepAlnum_not_digit (noDigit_pyUpper (noDigit_pyStrip hs) d hd)

theorem noDigit_map_runner_id {s : String} (hs : noDigit s) :
    noDigit (map_runner_id s) := by
  unfold map_runner_id
  split
  · decide
  · split
    · decide
    · split
      · decide
      · exact hs

theorem noDigit_orDefault {v : Option String} {dflt : String}
    (hv : noDigit (v.getD "")) (hd : noDigit dflt) :
    noDigit (orDefault v dflt) := by
  cases v with
  | none => exact hd
  | some s =>
    show noDigit (if s = "" then dflt else s)
    by_cases h : s = ""
    · rw [if_pos h]
      exact hd
    · rw [if_neg h]
      exact hv

/-- Counterexample for C7: the instruction text embeds `packet_path` and
`run_dir` verbatim, so a packet path containing an ISO-8601 date or a run
directory containing an `HH:MM:SS` time reappears in the handoff chunk. -/
theorem c7_counterexample :
    (build_handoff_chunks "2024-01-01.md" "out"
        [.dict (some "alpha") none none]).map
      (fun c => hasIsoDate c.instructions_block) = [true]
    ∧ (build_handoff_chunks "p.md" "runs/12:34:56"
        [.dict (some "alpha") none none]).map
      (fun c => hasClockTime c.instructions_block) = [true] := by
  constructor
  · decide
  · decide

/-- C7 amended: when the route plan's `packet_path`, `run_dir` and each
step's step/runner/model strings contain no decimal digits, no handoff
chunk's instruction text contains an ISO-8601 date or `HH:MM:SS` substring
(the builder injects no timestamps of its own: every digit in the text
comes from its inputs). -/
theorem c7_amended_no_timestamp (pp rd : String) (steps : List PlanStep)
    (hpp : noDigit pp) (hrd : noDigit rd)
    (hsteps : ∀ st ∈ steps, stepFieldsNoDigit st) :
    ∀ chunk ∈ build_handoff_chunks pp rd steps,
      hasIsoDate chunk.instructions_block = false ∧
      hasClockTime chunk.instructions_block = false := by
  intro chunk hc
  have hblock : noDigit chunk.instructions_block := by
    unfold build_handoff_chunks at hc
    induction steps with
    | nil => cases hc
    | cons st rest ih =>
      cases st with
      | invalid =>
        exact ih (fun x hx => hsteps x (List.mem_cons_of_mem _ hx)) hc
      | dict s r m =>
        obtain ⟨hs, hr, hm⟩ := hsteps _ (List.mem_cons_self _ _)
        by_cases hname : pyStrip (s.getD "") = ""
        · simp only [buildChunks, if_pos hname] at hc
          exact ih (fun x hx => hsteps x (List.mem_cons_of_mem _ hx)) hc
        · simp only [buildChunks, if_neg hname] at hc
          rcases List.mem_cons.mp hc with hEq | hTail
          · subst hEq
            have hrun : noDigit (map_runner_id (orDefault r "unknown")) :=
              noDigit_map_runner_id (noDigit_orDefault hr (by decide))
            have hmod : noDigit (orDefault m "unspecified") :=
              noDigit_orDefault hm (by decide)
            have hsent : noDigit ("STEP_" ++
                normalize_step_token (pyStrip (s.getD "")) ++ ".DONE") :=
              noDigit_append (noDigit_append (by decide)
                (noDigit_normalize_step_token (noDigit_pyStrip hs))) (by decide)
            have hpath : noDigit (if rd ≠ "" then
                rd ++ "/" ++ ("STEP_" ++
                  normalize_step_token (pyStrip (s.getD "")) ++ ".DONE")
              else ("STEP_" ++
                normalize_step_token (pyStrip (s.getD "")) ++ ".DONE")) := by
              split
              · exact noDigit_append (noDigit_append hrd (by decide)) hsent
              · exact hsent
            exact noDigit_append (noDigit_append (noDigit_append
              (noDigit_append (noDigit_append (noDigit_append
                (noDigit_append (noDigit_append (noDigit_append
                  (by decide) hrun) (by decide)) hmod) (by decide)) hpp)
                (by decide)) hrd) (by decide)) hpath
          · exact ih (fun x hx => hsteps x (List.mem_cons_of_mem _ hx)) hTail
  exact ⟨anyTail_false_of_noDigit isoDateAt (fun l => isoDateAt_head_digit)
      chunk.instructions_block.data hblock,
    anyTail_false_of_noDigit timeAt (fun l => timeAt_head_digit)
      chunk.instructions_block.data hblock⟩

/-- Witness for C7 amended: a digit-free plan yields chunks with no date or
time substring. -/
theorem c7_witness :
    (build_handoff_chunks "packets/demo.md" "runs/demo"
        [.dict (some "alpha") (some "codex_desktop") none]).all
      (fun c => !hasIsoDate c.instructions_block &&
        !hasClockTime c.instructions_block) = true := by
  rw [List.all_eq_true]
  intro c hc
  have h := c7_amended_no_timestamp "packets/demo.md" "runs/demo"
    [.dict (some "alpha") (some "codex_desktop") none]
    (by decide) (by decide) (by decide) c hc
  simp [h.1, h.2]

/-- One element of `claims["items"]` as `_aggregate_claims` sees it: a
non-dict element, or an item whose `claim_type`/`text` are present exactly
when they are strings in the JSON. -/
inductive ClaimItem where
  | invalid : ClaimItem
  | item (claim_type : Option String) (text : Option String) : ClaimItem
deriving DecidableEq

/-- One run summary as `_aggregate_claims` sees it: the stringified
`run_id`, and the claim item list, or `none` when `claims` is not a dict or
`claims["items"]` is not a list (the run is then skipped). -/
structure RunSummary where
  run_id : String
  claims_items : Option (List ClaimItem)
deriving DecidableEq

/-- The `counts = dict.fromkeys(CLAIM_TYPES, 0)` accumulator. -/
structure ClaimCounts where
  change_made : Nat
  test_passed : Nat
  test_failed : Nat
  constraint_respected : Nat
  unknown : Nat
deriving DecidableEq

/-- The sum of all five taxonomy counters. -/
def countsTotal (c : ClaimCounts) : Nat :=
  c.change_made + c.test_passed + c.test_failed + c.constraint_respected +
    c.unknown

/-- `counts[claim_type] += 1` when the type is one of the five taxonomy
strings, else `counts["unknown"] += 1`. -/
def bumpCounts (ct : Option String) (c : ClaimCounts) : ClaimCounts :=
  if ct = some "change_made" then {c with change_made := c.change_made + 1}
  else if ct = some "test_passed" then {c with test_passed := c.test_passed + 1}
  else if ct = some "test_failed" then {c with test_failed := c.test_failed + 1}
  else if ct = some "constraint_respected" then
    {c with constraint_respected := c.constraint_respected + 1}
  else {c with unknown := c.unknown + 1}

/-- Python `set.add` on a run-id set kept as an insertion-ordered
duplicate-free list. -/
def setInsert (run_id : String) (l : List String) : List String :=
  if l.contains run_id then l else l ++ [run_id]

/-- `map.setdefault(text, set()).add(run_id)` on an insertion-ordered
association list from claim text to run-id set. -/
def mapAdd (text run_id : String) :
    List (String × List String) → List (String × List String)
  | [] => [(text, [run_id])]
  | (t, ids) :: rest =>
    if t = text then (t, setInsert run_id ids) :: rest
    else (t, ids) :: mapAdd text run_id rest

/-- The `_aggregate_claims` loop accumulator: taxonomy counts and the
`test_failed`/`unknown` text maps. -/
structure ClaimsAcc where
  counts : ClaimCounts
  failed_map : List (String × List String)
  unknown_map : List (String × List String)
deriving DecidableEq

/-- The body of the inner `for item in items` loop of `_aggregate_claims`. -/
def processItem (run_id : String) (acc : ClaimsAcc) : ClaimItem → ClaimsAcc
  | .invalid => acc
  | .item ct text =>
    let c := bumpCounts ct acc.counts
    match text with
    | none => {acc with counts := c}
    | some t =>
      if t = "" then {acc with counts := c}
      else
        {counts := c,
          failed_map :=
            if ct = some "test_failed" then mapAdd t run_id acc.failed_map
            else acc.failed_map,
          unknown_map :=
            if ct = some "unknown" then mapAdd t run_id acc.unknown_map
            else acc.unknown_map}

/-- The inner loop over a run's claim items. -/
def processItems (run_id : String) (acc : ClaimsAcc) :
    List ClaimItem → ClaimsAcc
  | [] => acc
  | it :: rest => processItems run_id (processItem run_id acc it) rest

/-- The outer `for summary in run_summaries` loop: runs whose claims/items
are malformed are skipped. -/
def processSummaries (acc : ClaimsAcc) : List RunSummary → ClaimsAcc
  | [] => acc
  | s :: rest =>
    match s.claims_items with
    | none => processSummaries acc rest
    | some items => processSummaries (processItems s.run_id acc items) rest

/-- One surfaced entry: claim text, run-count, sorted run ids. -/
structure TextEntry where
  text : String
  count : Nat
  run_ids : List String
deriving DecidableEq

/-- Turn a text map into entries: `count = len(run_ids)`,
`run_ids = sorted(run_ids)`. -/
def toEntries (m : List (String × List String)) : List TextEntry :=
  m.map (fun p => ⟨p.1, p.2.length, pySortStr p.2⟩)

/-- `list.sort(key=lambda item: (-count, text))`: map keys are pairwise
distinct texts, so the sort key is injective and any correct sort gives the
Python order. -/
def sortEntries (l : List TextEntry) : List TextEntry :=
  l.insertionSort (fun a b =>
    b.count < a.count ∨ (a.count = b.count ∧ strLe a.text b.text = true))

/-- The dict `_aggregate_claims` returns. -/
structure ClaimsAggregate where
  claim_counts_by_type : ClaimCounts
  top_recurring_test_failed : List TextEntry
  repeated_unknown_claims : List TextEntry
deriving DecidableEq

/-- `_aggregate_claims` from `dopetask/pipeline/case/auditor.py`: note the
`test_failed` list keeps every text seen in at least one run
(`len(run_ids) >= 1`) while the `unknown` list keeps only texts seen in more
than one run (`len(run_ids) > 1`); both are sorted by (descending count,
text) and truncated to ten. -/
def aggregate_claims (run_summaries : List RunSummary) : ClaimsAggregate :=
  let acc := processSummaries ⟨⟨0, 0, 0, 0, 0⟩, [], []⟩ run_summaries
  let top_failed := sortEntries
    ((toEntries acc.failed_map).filter (fun e => decide (1 ≤ e.count)))
  let repeated_unknown := sortEntries
    ((toEntries acc.unknown_map).filter (fun e => decide (1 < e.count)))
  ⟨acc.counts, top_failed.take 10, repeated_unknown.take 10⟩

/-- Whether a claim item is a dict (the loop skips the rest). -/
def isItemDict : ClaimItem → Bool
  | .invalid => false
  | .item _ _ => true

/-- Number of dict-shaped claim items across the runs the aggregation
visits. -/
def totalItems (run_summaries : List RunSummary) : Nat :=
  (run_summaries.map (fun s =>
    match s.claims_items with
    | none => 0
    | some items => (items.filter isItemDict).length)).sum

theorem bumpCounts_total (ct : Option String) (c : ClaimCounts) :
    countsTotal (bumpCounts ct c) = countsTotal c + 1 := by
  unfold bumpCounts
  split
  · simp [countsTotal]
    omega
  · split
    · simp [countsTotal]
      omega
    · split
      · simp [countsTotal]
        omega
      · split
        · simp [countsTotal]
          omega
        · simp [countsTotal]
          omega

theorem processItem_total (run_id : String) (acc : ClaimsAcc)
    (it : ClaimItem) :
    countsTotal (processItem run_id acc it).counts =
      countsTotal acc.counts + (if isItemDict it then 1 else 0) := by
  cases it with
  | invalid => simp [processItem, isItemDict]
  | item ct text =>
    cases text with
    | none => simp [processItem, isItemDict, bumpCounts_total]
    | some t =>
      by_cases ht : t = ""
      · simp [processItem, isItemDict, ht, bumpCounts_total]
      · simp [processItem, isItemDict, ht, bumpCounts_total]

theorem processItems_total (run_id : String) (acc : ClaimsAcc)
    (items : List ClaimItem) :
    countsTotal (processItems run_id acc items).counts =
      countsTotal acc.counts + (items.filter isItemDict).length := by
  induction items generalizing acc with
  | nil => simp [processItems]
  | cons it rest ih =>
    rw [processItems, ih, processItem_total]
    cases it with
    | invalid => simp [isItemDict]
    | item ct text =>
      simp [isItemDict, List.filter]
      omega

theorem processSummaries_total (acc : ClaimsAcc)
    (run_summaries : List RunSummary) :
    countsTotal (processSummaries acc run_summaries).counts =
      countsTotal acc.counts + totalItems run_summaries := by
  induction run_summaries generalizing acc with
  | nil => simp [processSummaries, totalItems]
  | cons s rest ih =>
    cases hs : s.claims_items with
    | none =>
      rw [processSummaries, hs, ih]
      simp [totalItems, hs]
    | some items =>
      rw [processSummaries, hs, ih, processItems_total]
      simp [totalItems, hs]
      omega

/-- Counterexample for C8: a `test_failed` claim text appearing in exactly
one run is still surfaced in `top_recurring_test_failed` (the code filters
with `len(run_ids) >= 1`, not `> 1`). -/
theorem c8_counterexample :
    (aggregate_claims
        [⟨"r1", some [.item (some "test_failed") (some "regression")]⟩]
      ).top_recurring_test_failed = [⟨"regression", 1, ["r1"]⟩]
    ∧ ((aggregate_claims
        [⟨"r1", some [.item (some "test_failed") (some "regression")]⟩]
      ).top_recurring_test_failed.all (fun e => decide (1 < e.count))) = false := by
  exact ⟨by decide, by decide⟩

/-- C8 amended: surfaced `test_failed` texts appear in at least one run
(one run suffices — the threshold is `>= 1`), surfaced `unknown` texts
appear in more than one run, and claims are counted by the fixed five-type
taxonomy: every dict item increments exactly one of the five counters. -/
theorem c8_claims_aggregation_amended :
    (∀ rs, ∀ e ∈ (aggregate_claims rs).top_recurring_test_failed, 1 ≤ e.count)
    ∧ (∀ rs, ∀ e ∈ (aggregate_claims rs).repeated_unknown_claims, 1 < e.count)
    ∧ (∀ rs, countsTotal (aggregate_claims rs).claim_counts_by_type =
        totalItems rs) := by
  refine ⟨?_, ?_, ?_⟩
  · intro rs e he
    have h1 := List.mem_of_mem_take he
    have h2 := (List.mem_insertionSort _).mp h1
    have h3 := (List.mem_filter.mp h2).2
    exact of_decide_eq_true h3
  · intro rs e he
    have h1 := List.mem_of_mem_take he
    have h2 := (List.mem_insertionSort _).mp h1
    have h3 := (List.mem_filter.mp h2).2
    exact of_decide_eq_true h3
  · intro rs
    have h := processSummaries_total ⟨⟨0, 0, 0, 0, 0⟩, [], []⟩ rs
    simpa [countsTotal] using h

/-- Witness for C8 amended: the surfaced entry of a two-run repeated
`unknown` claim has run-count greater than one. -/
theorem c8_witness :
    1 < (⟨"odd output", 2, ["runA", "runB"]⟩ : TextEntry).count :=
  c8_claims_aggregation_amended.2.1
    [⟨"runA", some [.item (some "unknown") (some "odd output")]⟩,
     ⟨"runB", some [.item (some "unknown") (some "odd output")]⟩]
    ⟨"odd output", 2, ["runA", "runB"]⟩ (by decide)

/-- `DETERMINISTIC_TIMESTAMP` constant, identical in
`taskx/pipeline/bundle/ingester.py` and `dopetask/pipeline/case/auditor.py`. -/
def DETERMINISTIC_TIMESTAMP : String := "1970-01-01T00:00:00Z"

/-- `_timestamp(timestamp_mode)` shared by ingester and auditor: the wall
clock enters as `now` (only consulted in `wallclock` mode). -/
def timestamp (timestamp_mode now : String) : Except String String :=
  if timestamp_mode = "deterministic" then .ok DETERMINISTIC_TIMESTAMP
  else if timestamp_mode = "wallclock" then .ok now
  else .error ("Invalid timestamp_mode: " ++ timestamp_mode)

/-- The content-relevant inputs of `ingest_bundle` once the zip is read:
the zip hash, the case id derived from the manifest (or the zip stem), the
manifest schema errors, the manifest `files` value, and the extracted file
index. -/
structure IngestInput where
  zip_sha256 : String
  case_id : String
  schema_errors : List String
  manifest_files : ManifestFiles
  extracted_files : List FileEntry
deriving DecidableEq

/-- The CASE_INDEX.json content `ingest_bundle` writes. -/
structure CaseIndex where
  schema_version : String
  case_id : String
  ingested_at : String
  zip_sha256 : String
  integrity : IntegrityResult
  files : List FileEntry
deriving DecidableEq

/-- The pure core of `ingest_bundle`
(`taskx/pipeline/bundle/ingester.py`): the timestamp-mode guard runs first,
before extraction or any write, and the CASE_INDEX content is assembled
from the inputs with `ingested_at = _timestamp(timestamp_mode)`.  An
`Except.error` models the raised `ValueError`, before which nothing is
written. -/
def ingest_case_index (timestamp_mode now : String) (inp : IngestInput) :
    Except String CaseIndex :=
  if timestamp_mode = "deterministic" ∨ timestamp_mode = "wallclock" then
    match timestamp timestamp_mode now with
    | .error e => .error e
    | .ok ts =>
      .ok ⟨"1.0", inp.case_id, ts, inp.zip_sha256,
        build_integrity inp.schema_errors inp.manifest_files
          inp.extracted_files,
        inp.extracted_files⟩
  else .error ("Invalid timestamp_mode: " ++ timestamp_mode)

/-- The content-relevant parts of the CASE_FINDINGS.json that `audit_case`
writes: identity, `generated_at = _timestamp(timestamp_mode)`, the echoed
integrity status, and the claim aggregation. -/
structure CaseFindings where
  case_id : String
  generated_at : String
  timestamp_mode : String
  integrity_status : String
  claims : ClaimsAggregate
deriving DecidableEq

/-- The pure core of `audit_case`
(`dopetask/pipeline/case/auditor.py`): the timestamp-mode guard runs first,
before any directory creation or write; findings carry
`generated_at = _timestamp(timestamp_mode)` and deterministic aggregates of
the run summaries. -/
def audit_findings (timestamp_mode now : String) (case_id : String)
    (integrity_status : String) (run_summaries : List RunSummary) :
    Except String CaseFindings :=
  if timestamp_mode = "deterministic" ∨ timestamp_mode = "wallclock" then
    match timestamp timestamp_mode now with
    | .error e => .error e
    | .ok ts =>
      .ok ⟨case_id, ts, timestamp_mode, integrity_status,
        aggregate_claims run_summaries⟩
  else .error ("Invalid timestamp_mode: " ++ timestamp_mode)

/-- C9: in `deterministic` mode the fixed epoch constant is embedded as
`ingested_at`/`generated_at` and the outputs are independent of the wall
clock (two invocations over identical input content produce identical
CASE_INDEX/CASE_FINDINGS content); any other mode than `deterministic` or
`wallclock` raises `ValueError` in both functions before anything is
written. -/
theorem c9_deterministic_timestamp_mode :
    (∀ now, timestamp "deterministic" now = .ok "1970-01-01T00:00:00Z")
    ∧ (∀ now inp, ∃ ci, ingest_case_index "deterministic" now inp = .ok ci ∧
        ci.ingested_at = "1970-01-01T00:00:00Z")
    ∧ (∀ now cid ist rs, ∃ cf,
        audit_findings "deterministic" now cid ist rs = .ok cf ∧
        cf.generated_at = "1970-01-01T00:00:00Z")
    ∧ (∀ now₁ now₂ inp, ingest_case_index "deterministic" now₁ inp =
        ingest_case_index "deterministic" now₂ inp)
    ∧ (∀ now₁ now₂ cid ist rs, audit_findings "deterministic" now₁ cid ist rs =
        audit_findings "deterministic" now₂ cid ist rs)
    ∧ (∀ mode now inp, mode ≠ "deterministic" → mode ≠ "wallclock" →
        ingest_case_index mode now inp =
          .error ("Invalid timestamp_mode: " ++ mode))
    ∧ (∀ mode now cid ist rs, mode ≠ "deterministic" → mode ≠ "wallclock" →
        audit_findings mode now cid ist rs =
          .error ("Invalid timestamp_mode: " ++ mode)) := by
  refine ⟨?_, ?_, ?_, ?_, ?_, ?_, ?_⟩
  · intro now
    rfl
  · intro now inp
    exact ⟨_, rfl, rfl⟩
  · intro now cid ist rs
    exact ⟨_, rfl, rfl⟩
  · intro now₁ now₂ inp
    rfl
  · intro now₁ now₂ cid ist rs
    rfl
  · intro mode now inp h1 h2
    simp [ingest_case_index, h1, h2]
  · intro mode now cid ist rs h1 h2
    simp [audit_findings, h1, h2]

/-- Witness for C9: mode `bogus` is rejected with the exact `ValueError`
message on a concrete input. -/
theorem c9_witness :
    ingest_case_index "bogus" "now" ⟨"ff", "case-1", [], .list [], []⟩ =
      .error ("Invalid timestamp_mode: " ++ "bogus") :=
  c9_deterministic_timestamp_mode.2.2.2.2.2.1 "bogus" "now"
    ⟨"ff", "case-1", [], .list [], []⟩ (by decide) (by decide)

end TaskX
